import Mathlib

/-!
# Verification of the appdaemon-testing `HassDriver` core

Shallow embedding of `appdaemon_testing/hass_driver.py`: the virtual clock
and scheduler (`time_travel_to`, the `_se_run_*` registration helpers, the
`possible_side_effects_state_change` decorator, `_se_cancel_timer`) and the
entity state store and notifier (`set_state`, `_se_get_state`,
`_se_listen_state`, the `setup` context manager).

Modelling conventions:
* `datetime` values are totally ordered timestamps; we embed them as `Int`
  seconds since an arbitrary epoch.  `timedelta(seconds=n)` is `+ n`.
* Callbacks and the opaque `kwargs` payload of a schedule are never
  inspected by the core; they are embedded as opaque `Nat` identifiers and
  an invocation of a callback is recorded as a trace event (`Invocation`)
  instead of executing arbitrary code.
* `uuid.uuid4()` handles are modelled as fresh nonces drawn from a counter
  held by the driver; the only property the code relies on is freshness.
* Python dictionaries keep insertion order; they are embedded as
  association lists, with `defaultdict` behaviour made explicit
  (`getOrInsert`).
* A raised Python exception is modelled either as `Except.error` (when the
  surrounding state is not needed) or as an `Option String` error component
  next to the post-state (mutations made before the raise persist).
-/

/-- A dynamically typed Python value as stored in the entity state store.
`none` is Python `None`. -/
inductive Value where
  | none
  | bool (b : Bool)
  | int (n : Int)
  | str (s : String)
deriving DecidableEq, Repr

/-- Python truthiness for `Value`: `None`, `False`, `0` and the empty
string are falsy. -/
def truthy : Value → Bool
  | Value.none => false
  | Value.bool b => b
  | Value.int n => n != 0
  | Value.str s => s != ""

/-- An attribute map of one entity: attribute name to value. -/
abbrev AttrMap : Type := List (String × Value)

/-- A Python object as returned by `get_state`: either a plain value or an
attribute dictionary (needed because `get_state(..., attribute="all")`
returns whole dictionaries). -/
inductive PyObj where
  | prim (v : Value)
  | dict (m : AttrMap)
deriving DecidableEq, Repr

/-- Python truthiness for `PyObj`: an empty dict is falsy. -/
def truthyObj : PyObj → Bool
  | PyObj.prim v => truthy v
  | PyObj.dict m => !m.isEmpty

/-- The value reported to a `listen_state` observer: a single value, or a
whole attribute-map snapshot for a wildcard (`"all"`) observer. -/
inductive Param where
  | val (v : Value)
  | map (m : AttrMap)
deriving DecidableEq, Repr

/-- Result of `_se_get_state`: one object (fully qualified entity id) or a
mapping from entity ids to objects (bare-domain query). -/
inductive GetRes where
  | one (o : PyObj)
  | many (m : List (String × PyObj))
deriving DecidableEq, Repr

/-- Equality on `Except` results is decidable componentwise (used to
evaluate the embedded operations at concrete inputs). -/
instance {e a : Type} [DecidableEq e] [DecidableEq a] :
    DecidableEq (Except e a) := fun x y =>
  match x, y with
  | Except.error e1, Except.error e2 => decidable_of_iff (e1 = e2) (by simp)
  | Except.error _, Except.ok _ => isFalse (fun hh => Except.noConfusion hh)
  | Except.ok _, Except.error _ => isFalse (fun hh => Except.noConfusion hh)
  | Except.ok v1, Except.ok v2 => decidable_of_iff (v1 = v2) (by simp)

/-- Embeds `state_entry.get(attribute_name)`: dictionary lookup, Python `None`
when the key is missing. -/
def attrGet (m : AttrMap) (k : String) : Value :=
  match m.find? (fun p => p.1 = k) with
  | some p => p.2
  | Option.none => Value.none

/-- Embeds `state_entry[attribute_name] = v`: dictionary store; an existing key
keeps its position, a new key is appended (Python insertion order). -/
def attrSet (m : AttrMap) (k : String) (v : Value) : AttrMap :=
  if (m.find? (fun p => p.1 = k)).isSome then
    m.map (fun p => if p.1 = k then (k, v) else p)
  else m ++ [(k, v)]

/-- The `defaultdict(lambda: dict(state=None))` default entry for a fresh
entity. -/
def defaultEntry : AttrMap := [("state", Value.none)]

/-- Embeds `self._states[entity]` on the `defaultdict`: returns the states map
(with the default entry inserted if the entity was absent) together with
the entity's entry. -/
def getOrInsert (states : List (String × AttrMap)) (e : String) :
    List (String × AttrMap) × AttrMap :=
  match states.find? (fun p => p.1 = e) with
  | some p => (states, p.2)
  | Option.none => (states ++ [(e, defaultEntry)], defaultEntry)

/-- Replace the entry stored under an entity id (in-place mutation of the
dict held in `self._states`). -/
def setEntity (states : List (String × AttrMap)) (e : String) (m : AttrMap) :
    List (String × AttrMap) :=
  states.map (fun p => if p.1 = e then (e, m) else p)

/-- Python dict merge `a | b`: keys of `a` in order with values overridden
by `b`, then the keys of `b` not present in `a`. -/
def dictMerge (a b : AttrMap) : AttrMap :=
  a.map (fun p =>
    match b.find? (fun q => q.1 = p.1) with
    | some q => (p.1, q.2)
    | Option.none => p)
  ++ b.filter (fun q => (a.find? (fun p => p.1 = q.1)).isNone)

/-- Split a character list at every dot, Python `s.split(".")`. -/
def dotSplit : List Char → List (List Char)
  | [] => [[]]
  | c :: rest =>
    match dotSplit rest with
    | [] => [[]]
    | p :: ps => if c = '.' then [] :: p :: ps else (c :: p) :: ps

/-- Embeds `domain, _ = entity.split(".")`: succeeds exactly when the id has
exactly one dot (otherwise Python raises a `ValueError` while unpacking). -/
def splitDot (s : String) : Option (String × String) :=
  match dotSplit s.toList with
  | [a, b] => some (String.mk a, String.mk b)
  | _ => Option.none

/-- Embeds `"." in entity_id`. -/
def hasDot (s : String) : Bool := s.toList.contains '.'

/-- One registered `listen_state` observer (dataclass `StateSpy`).
`attr` embeds the source field `attribute` (a Lean keyword). -/
structure StateSpy where
  callback : Nat
  attr : Option String
  new : Option Value
  old : Option Value
  kwargs : AttrMap
deriving DecidableEq, Repr

/-- One registered timer (dataclass `Scheduler`).  `__post_init__` sets
`last_run = start`, see `mkScheduler`. -/
structure Scheduler where
  start : Int
  frequency_sec : Int
  callback : Nat
  kwargs : Nat
  run_count : Nat
  last_run : Int
  is_canceled : Bool
deriving DecidableEq, Repr

/-- Embeds `Scheduler(start, frequency_sec, callback, kwargs)` followed by
`__post_init__`. -/
def mkScheduler (start frequency_sec : Int) (cb kw : Nat) : Scheduler :=
  { start := start, frequency_sec := frequency_sec, callback := cb,
    kwargs := kw, run_count := 0, last_run := start, is_canceled := false }

/-- A recorded invocation of a schedule callback: the due instant it was
collected for, the callback and kwargs it was called with, and the
driver's current instant at the moment of invocation. -/
structure Invocation where
  fire_at : Int
  callback : Nat
  kwargs : Nat
  now : Int
deriving DecidableEq, Repr

/-- A recorded invocation of a `listen_state` observer callback
(`spy.callback(entity, param_attribute, param_old, param_new, merged)`). -/
structure Notification where
  callback : Nat
  entity : String
  attr : Option String
  old : Param
  new : Param
  kwargs : AttrMap
deriving DecidableEq, Repr

/-- The time-of-day component of a timestamp, `datetime.time()`. -/
def timeOf (t : Int) : Int := t % 86400

/-- The date component of a timestamp, `datetime.date()`. -/
def dateOf (t : Int) : Int := t / 86400

/-- The `HassDriver` object state.  The three `mock_*_return` fields embed
the `return_value=` arguments captured when the `time`, `datetime` and
`date` mocks are built inside `__init__`. -/
structure HassDriver where
  base_datetime : Int
  current_datetime : Int
  setup_active : Bool
  update_states : Bool
  states : List (String × AttrMap)
  state_spys : List (Option String × List StateSpy)
  schedulers : List (Nat × Scheduler)
  next_handle : Nat
  mock_time_return : Int
  mock_datetime_return : Int
  mock_date_return : Int
deriving DecidableEq, Repr

/-- Embeds `HassDriver.__init__(update_states, base_date)`.  The `time`,
`datetime` and `date` mocks capture `self.simulation_time` parts once,
here, and are never refreshed. -/
def mkDriver (update_states : Bool) (base_date : Int) : HassDriver :=
  { base_datetime := base_date, current_datetime := base_date,
    setup_active := false, update_states := update_states,
    states := [], state_spys := [], schedulers := [], next_handle := 0,
    mock_time_return := timeOf base_date,
    mock_datetime_return := base_date,
    mock_date_return := dateOf base_date }

/-- The `simulation_time` property. -/
def simulation_time (d : HassDriver) : Int := d.current_datetime

/-- The `time` mock: returns the `return_value` captured at construction. -/
def mock_time (d : HassDriver) : Int := d.mock_time_return

/-- The `datetime` mock: returns the `return_value` captured at
construction. -/
def mock_datetime (d : HassDriver) : Int := d.mock_datetime_return

/-- The `date` mock: returns the `return_value` captured at construction. -/
def mock_date (d : HassDriver) : Int := d.mock_date_return

/-- A due-callback tuple `(fire_instant, callback, kwargs)` as appended to
`callbacks_due`. -/
abbrev Due : Type := Int × Nat × Nat

/-- The `while next_ <= new_datetime` loop body of `time_travel_to` for a
repeating schedule, embedded with structural fuel.  One fuel unit is spent
per iteration; callers pass `(new_datetime + 1 - last_run).toNat`, which
bounds the iteration count because `next_` grows by `frequency_sec >= 1`
each round, so the zero-fuel branch is never the one that answers.
Returns the final `last_run`, the final `run_count` and the generated due
tuples in generation order. -/
def schedLoop (cur new P : Int) (cb kw : Nat) :
    Nat → Int → Int → Nat → Int × Nat × List Due
  | 0, _, lastRun, runCount => (lastRun, runCount, [])
  | fuel + 1, next_, lastRun, runCount =>
    if next_ ≤ new then
      if cur ≤ next_ then
        let r := schedLoop cur new P cb kw fuel (next_ + P) (lastRun + P) (runCount + 1)
        (r.1, r.2.1, (next_, cb, kw) :: r.2.2)
      else
        schedLoop cur new P cb kw fuel (next_ + P) lastRun runCount
    else (lastRun, runCount, [])

/-- The per-record body of the `for s in self._schedulers.values()` loop in
`time_travel_to`: the skip (`continue`) test and the one-shot append only
apply when `frequency_sec < 1`; a repeating record always enters the
`while` loop.  Returns the mutated record and the due tuples it
contributed. -/
def collectDueOne (cur new : Int) (s : Scheduler) : Scheduler × List Due :=
  if s.frequency_sec < 1 then
    if s.is_canceled = true ∨ s.start < cur ∨ s.start > new ∨
        (s.start = cur ∧ s.run_count > 0) then
      (s, [])
    else
      ({ s with run_count := s.run_count + 1 }, [(s.start, s.callback, s.kwargs)])
  else
    let r := schedLoop cur new s.frequency_sec s.callback s.kwargs
      ((new + 1 - s.last_run).toNat) s.last_run s.last_run s.run_count
    ({ s with last_run := r.1, run_count := r.2.1 }, r.2.2)

/-- The whole collection loop of `time_travel_to`: iterates the scheduler
map in insertion order, accumulating `callbacks_due` in discovery order. -/
def collectDue (cur new : Int) :
    List (Nat × Scheduler) → List (Nat × Scheduler) × List Due
  | [] => ([], [])
  | (h, s) :: rest =>
    let r1 := collectDueOne cur new s
    let r2 := collectDue cur new rest
    ((h, r1.1) :: r2.1, r1.2 ++ r2.2)

/-- Insert a due tuple into a list sorted by fire instant, before the first
element whose instant is not smaller.  Among equal instants the inserted
(later-discovered) tuple therefore lands after the ones already present. -/
def insertByInstant (x : Due) : List Due → List Due
  | [] => [x]
  | y :: ys => if y.1 < x.1 then y :: insertByInstant x ys else x :: y :: ys

/-- Embedding of Python's `sorted(callbacks_due, key=lambda x: x[0])`:
a stable ascending sort by fire instant.  A stable sort by a key is
extensionally unique, so this insertion sort is the same function. -/
def sortByInstant : List Due → List Due
  | [] => []
  | x :: xs => insertByInstant x (sortByInstant xs)

/-- Wrap a collected due tuple as the record of its invocation at a given
current instant. -/
def toInvocation (now : Int) (due : Due) : Invocation :=
  { fire_at := due.1, callback := due.2.1, kwargs := due.2.2, now := now }

/-- Embeds `HassDriver.time_travel_to`.  Returns the trace of callback
invocations (in invocation order, each tagged with the driver's current
instant at the moment it runs — the instant is only moved to
`new_datetime` after the whole batch) and the post-state. -/
def time_travel_to (d : HassDriver) (new_datetime : Int) :
    Except String (List Invocation × HassDriver) :=
  if new_datetime = simulation_time d then Except.ok ([], d)
  else if new_datetime < simulation_time d then
    Except.error "time travel is only possible to the future!"
  else
    let r := collectDue (simulation_time d) new_datetime d.schedulers
    let fired := sortByInstant r.2
    Except.ok
      (fired.map (toInvocation d.current_datetime),
       { d with schedulers := r.1, current_datetime := new_datetime })

/-- A sequence of `time_travel_to` calls, concatenating the invocation
traces; an exception aborts the rest of the sequence. -/
def runAdvances (d : HassDriver) : List Int → Except String (List Invocation × HassDriver)
  | [] => Except.ok ([], d)
  | t :: ts =>
    match time_travel_to d t with
    | Except.error e => Except.error e
    | Except.ok (invs, d1) =>
      match runAdvances d1 ts with
      | Except.error e => Except.error e
      | Except.ok (invs2, d2) => Except.ok (invs ++ invs2, d2)

/-- Embeds `old_value = previous or prev_state.get(attribute_name)`: Python `or`
keeps `previous` only when it is truthy; `None`, `0`, `False` and `""`
all fall through to the stored value. -/
def resolve_old (previous : Value) (stored : Value) : Value :=
  if truthy previous then previous else stored

/-- Embeds `self._state_spys[key]` on the `defaultdict` (the empty-list insertion
performed by the defaultdict is unobservable and omitted). -/
def spysFor (m : List (Option String × List StateSpy)) (k : Option String) :
    List StateSpy :=
  match m.find? (fun p => p.1 = k) with
  | some p => p.2
  | Option.none => []

/-- Outcome of `set_state`: the post-state of the driver, the observer
callbacks invoked (in order), and the raised exception if any (mutations
made before a raise persist; the raise in `set_state` happens before any
mutation). -/
structure SetOut where
  driver : HassDriver
  notified : List Notification
  error : Option String
deriving DecidableEq, Repr

/-- Embeds `HassDriver.set_state(entity, state, attribute_name=..., previous=...,
trigger=..., **kwargs)`.  `previous = Value.none` is the unsupplied
default (supplying Python `None` explicitly is indistinguishable). -/
def set_state (d : HassDriver) (entity : String) (state : Value)
    (attribute_name : String) (previous : Value) (trigger : Option Bool)
    (kwargs : AttrMap) : SetOut :=
  let trig := match trigger with
    | some b => b
    | Option.none => !d.setup_active
  match splitDot entity with
  | Option.none =>
    { driver := d, notified := [],
      error := some "ValueError: not enough values to unpack" }
  | some (domain, _) =>
    let si := getOrInsert d.states entity
    let state_entry := si.2
    let prev_state := state_entry
    let old_value := resolve_old previous (attrGet state_entry attribute_name)
    let new_value := state
    if old_value = new_value then
      { driver := { d with states := si.1 }, notified := [], error := Option.none }
    else
      let state_entry2 := attrSet state_entry attribute_name new_value
      let d2 := { d with states := setEntity si.1 entity state_entry2 }
      if !trig then { driver := d2, notified := [], error := Option.none }
      else
        let spys := spysFor d.state_spys (some domain) ++ spysFor d.state_spys (some entity)
        let notifs := spys.filterMap (fun spy =>
          let sat_attr := spy.attr = some attribute_name ∨ spy.attr = some "all"
          let sat_new := spy.new = Option.none ∨ spy.new = some new_value
          let sat_old := spy.old = Option.none ∨ spy.old = some old_value
          let param_old := if spy.attr = some "all" then Param.map prev_state
                           else Param.val old_value
          let param_new := if spy.attr = some "all" then Param.map state_entry2
                           else Param.val new_value
          let param_attr : Option String :=
            if spy.attr = some "all" then Option.none else some attribute_name
          if sat_old ∧ sat_new ∧ sat_attr then
            some { callback := spy.callback, entity := entity, attr := param_attr,
                   old := param_old, new := param_new,
                   kwargs := dictMerge spy.kwargs kwargs }
          else Option.none)
        { driver := d2, notified := notifs, error := Option.none }

/-- Embeds `HassDriver.setup`, a generator-based `@contextlib.contextmanager`
without try/finally: the flag is set, the body runs at the yield point,
and the reset line after the yield only runs when the body completes
normally — an exception thrown into the generator propagates and skips
it.  The body is modelled as a state transformer that may raise. -/
def setup (d : HassDriver) (body : HassDriver → HassDriver × Option String) :
    HassDriver × Option String :=
  let d1 := { d with setup_active := true }
  let r := body d1
  match r.2 with
  | Option.none => ({ r.1 with setup_active := false }, Option.none)
  | some e => (r.1, some e)

/-- Embeds `HassDriver._set_scheduler`: creates the record, stores it under a
fresh handle (`uuid.uuid4()` modelled as a fresh nonce) and returns the
handle. -/
def _set_scheduler (d : HassDriver) (start frequency_sec : Int) (cb kw : Nat) :
    HassDriver × Nat :=
  let handle := d.next_handle
  ({ d with
      schedulers := d.schedulers ++ [(handle, mkScheduler start frequency_sec cb kw)],
      next_handle := d.next_handle + 1 }, handle)

/-- The `possible_side_effects_state_change` decorator: the wrapped
function runs only when `update_states` is set, and its return value is
discarded — the wrapper body has no `return`, so the caller always
receives Python `None`. -/
def possible_side_effects_state_change {α : Type}
    (fn : HassDriver → HassDriver × α) (d : HassDriver) : HassDriver × Option α :=
  if d.update_states then ((fn d).1, Option.none) else (d, Option.none)

/-- Embeds `HassDriver._se_run_at` (also installed as the `run_once` mock). -/
def _se_run_at (cb : Nat) (start : Int) (kw : Nat) (d : HassDriver) :
    HassDriver × Option Nat :=
  possible_side_effects_state_change (fun d0 => _set_scheduler d0 start 0 cb kw) d

/-- Embeds `HassDriver._se_run_daily`. -/
def _se_run_daily (cb : Nat) (start : Int) (kw : Nat) (d : HassDriver) :
    HassDriver × Option Nat :=
  possible_side_effects_state_change
    (fun d0 => _set_scheduler d0 start (60 * 60 * 24) cb kw) d

/-- Embeds `HassDriver._se_run_hourly`. -/
def _se_run_hourly (cb : Nat) (start : Int) (kw : Nat) (d : HassDriver) :
    HassDriver × Option Nat :=
  possible_side_effects_state_change
    (fun d0 => _set_scheduler d0 start (60 * 60) cb kw) d

/-- Embeds `HassDriver._se_run_minutely`. -/
def _se_run_minutely (cb : Nat) (start : Int) (kw : Nat) (d : HassDriver) :
    HassDriver × Option Nat :=
  possible_side_effects_state_change
    (fun d0 => _set_scheduler d0 start 60 cb kw) d

/-- Embeds `HassDriver._se_run_every`. -/
def _se_run_every (cb : Nat) (start interval : Int) (kw : Nat) (d : HassDriver) :
    HassDriver × Option Nat :=
  possible_side_effects_state_change
    (fun d0 => _set_scheduler d0 start interval cb kw) d

/-- Embeds `HassDriver._se_run_in`: anchor is `self._current_datetime + delay`. -/
def _se_run_in (cb : Nat) (delay : Int) (kw : Nat) (d : HassDriver) :
    HassDriver × Option Nat :=
  possible_side_effects_state_change
    (fun d0 => _set_scheduler d0 (d0.current_datetime + delay) 0 cb kw) d

/-- Embeds `HassDriver._se_cancel_timer` (not wrapped by the decorator): marks the
record canceled, `KeyError` on an unknown handle. -/
def _se_cancel_timer (d : HassDriver) (handle : Nat) : HassDriver × Option String :=
  if (d.schedulers.find? (fun p => p.1 = handle)).isSome then
    ({ d with schedulers := d.schedulers.map (fun p =>
        if p.1 = handle then (p.1, { p.2 with is_canceled := true }) else p) },
      Option.none)
  else (d, some "KeyError")

/-- Embeds `HassDriver._se_turn_off`: `set_state(entity_id, "off", **kwargs)`,
behind the decorator.  The keyword passthrough is modelled as the
extra-kwargs argument of `set_state`. -/
def _se_turn_off (entity_id : String) (kwargs : AttrMap) (d : HassDriver) :
    HassDriver × Option (List Notification × Option String) :=
  possible_side_effects_state_change (fun d0 =>
    let r := set_state d0 entity_id (Value.str "off") "state" Value.none Option.none kwargs
    (r.driver, (r.notified, r.error))) d

/-- Embeds `HassDriver._se_turn_on`: `set_state(entity_id, "on", **kwargs)`,
behind the decorator. -/
def _se_turn_on (entity_id : String) (kwargs : AttrMap) (d : HassDriver) :
    HassDriver × Option (List Notification × Option String) :=
  possible_side_effects_state_change (fun d0 =>
    let r := set_state d0 entity_id (Value.str "on") "state" Value.none Option.none kwargs
    (r.driver, (r.notified, r.error))) d

/-- The `for s_eid, state in self._states.items()` loop of the bare-domain
branch of `_se_get_state`: every stored key is unpacked with
`domain, entity = s_eid.split(".")`, raising if a key does not have
exactly one dot; otherwise the entities of the requested domain are kept
in order. -/
def domainMatches (states : List (String × AttrMap)) (dom : String) :
    Except String (List (String × AttrMap)) :=
  match states with
  | [] => Except.ok []
  | (eid, m) :: rest =>
    match splitDot eid with
    | Option.none => Except.error "ValueError: values to unpack"
    | some (d0, _) =>
      match domainMatches rest dom with
      | Except.error e => Except.error e
      | Except.ok ms => Except.ok (if d0 = dom then (eid, m) :: ms else ms)

/-- Embeds `HassDriver._se_get_state`.  Returns the result and the post-state
(the fully-qualified branch lazily inserts a default entry through the
`defaultdict`). -/
def _se_get_state (d : HassDriver) (entity_id : String) (attr_name : String)
    (default : Value) : Except String (GetRes × HassDriver) :=
  let fully_qualified := hasDot entity_id
  if fully_qualified then
    let si := getOrInsert d.states entity_id
    let matched : PyObj := PyObj.dict si.2
    let matched := if attr_name = "all" then matched
                   else PyObj.prim (attrGet si.2 attr_name)
    let matched := if default = Value.none then matched
                   else if truthyObj matched then matched else PyObj.prim default
    Except.ok (GetRes.one matched, { d with states := si.1 })
  else
    match domainMatches d.states entity_id with
    | Except.error e => Except.error e
    | Except.ok matched0 =>
      let matched : List (String × PyObj) :=
        if attr_name = "all" then matched0.map (fun p => (p.1, PyObj.dict p.2))
        else matched0.map (fun p => (p.1, PyObj.prim (attrGet p.2 attr_name)))
      let matched := if default = Value.none then matched
        else matched.map (fun p =>
          (p.1, if truthyObj p.2 then p.2 else PyObj.prim default))
      Except.ok (GetRes.many matched, d)

/-- Embeds `HassDriver._se_listen_state`: builds the `StateSpy` with
`attribute or "state"` and appends it to the list keyed by the entity (or
domain, or `None`); returns a fresh `uuid4` nonce. -/
def _se_listen_state (d : HassDriver) (callback : Nat) (entity : Option String)
    (attr_name : Option String) (new old : Option Value) (kwargs : AttrMap) :
    HassDriver × Nat :=
  let attr := match attr_name with
    | some s => if s = "" then "state" else s
    | Option.none => "state"
  let spy : StateSpy :=
    { callback := callback, attr := some attr, new := new, old := old,
      kwargs := kwargs }
  let spys :=
    match d.state_spys.find? (fun p => p.1 = entity) with
    | some _ => d.state_spys.map (fun p =>
        if p.1 = entity then (p.1, p.2 ++ [spy]) else p)
    | Option.none => d.state_spys ++ [(entity, [spy])]
  ({ d with state_spys := spys, next_handle := d.next_handle + 1 }, d.next_handle)

/-- A driver freshly constructed at instant `c0` with a single
`run_every(cb, anchor, interval)` registration (through the mock side
effect, i.e. behind the decorator). -/
def registerEvery (c0 anchor interval : Int) (cb kw : Nat) : HassDriver :=
  (_se_run_every cb anchor interval kw (mkDriver true c0)).1

/-! ## Properties of the stable sort -/

theorem mem_insertByInstant (x a : Due) :
    ∀ l, a ∈ insertByInstant x l ↔ a = x ∨ a ∈ l := by
  intro l
  induction l with
  | nil => simp [insertByInstant]
  | cons y ys ih =>
    simp only [insertByInstant]
    by_cases h : y.1 < x.1
    · simp only [if_pos h, List.mem_cons, ih]
      tauto
    · simp only [if_neg h, List.mem_cons]

theorem pairwise_insertByInstant (x : Due) :
    ∀ l, List.Pairwise (fun a b : Due => a.1 ≤ b.1) l →
      List.Pairwise (fun a b : Due => a.1 ≤ b.1) (insertByInstant x l) := by
  intro l
  induction l with
  | nil => intro _; simp [insertByInstant]
  | cons y ys ih =>
    intro hp
    rcases List.pairwise_cons.mp hp with ⟨hy, hys⟩
    simp only [insertByInstant]
    by_cases h : y.1 < x.1
    · rw [if_pos h]
      refine List.pairwise_cons.mpr ⟨?_, ih hys⟩
      intro a ha
      rcases (mem_insertByInstant x a ys).mp ha with rfl | ha
      · exact le_of_lt h
      · exact hy a ha
    · rw [if_neg h]
      refine List.pairwise_cons.mpr ⟨?_, hp⟩
      intro a ha
      rcases List.mem_cons.mp ha with rfl | ha
      · exact le_of_not_lt h
      · exact le_trans (le_of_not_lt h) (hy a ha)

theorem pairwise_sortByInstant :
    ∀ l, List.Pairwise (fun a b : Due => a.1 ≤ b.1) (sortByInstant l) := by
  intro l
  induction l with
  | nil => simp [sortByInstant]
  | cons x xs ih => exact pairwise_insertByInstant x _ ih

theorem filter_insertByInstant (x : Due) (t : Int) :
    ∀ l, (insertByInstant x l).filter (fun a => decide (a.1 = t)) =
      if x.1 = t then x :: l.filter (fun a => decide (a.1 = t))
      else l.filter (fun a => decide (a.1 = t)) := by
  intro l
  induction l with
  | nil =>
    simp only [insertByInstant, List.filter]
    by_cases hx : x.1 = t <;> simp [hx]
  | cons y ys ih =>
    simp only [insertByInstant]
    by_cases h : y.1 < x.1
    · rw [if_pos h]
      by_cases hx : x.1 = t
      · have hy : ¬ y.1 = t := by omega
        simp [List.filter_cons, hy, hx, ih]
      · by_cases hy : y.1 = t <;> simp [List.filter_cons, ih, hx, hy]
    · rw [if_neg h]
      by_cases hx : x.1 = t <;> simp [List.filter_cons, hx]

theorem filter_sortByInstant (t : Int) :
    ∀ l, (sortByInstant l).filter (fun a => decide (a.1 = t)) =
      l.filter (fun a => decide (a.1 = t)) := by
  intro l
  induction l with
  | nil => rfl
  | cons x xs ih =>
    simp only [sortByInstant, filter_insertByInstant, ih, List.filter_cons]
    by_cases hx : x.1 = t <;> simp [hx]

theorem length_insertByInstant (x : Due) :
    ∀ l, (insertByInstant x l).length = l.length + 1 := by
  intro l
  induction l with
  | nil => rfl
  | cons y ys ih =>
    simp only [insertByInstant]
    by_cases h : y.1 < x.1
    · simp [if_pos h, ih]
    · simp [if_neg h]

theorem length_sortByInstant : ∀ l, (sortByInstant l).length = l.length := by
  intro l
  induction l with
  | nil => rfl
  | cons x xs ih => simp [sortByInstant, length_insertByInstant, ih]

theorem filter_map_invocation (t now : Int) :
    ∀ l : List Due,
      ((l.map (toInvocation now)).filter (fun i => decide (i.fire_at = t))).map
          (fun i => (i.fire_at, i.callback, i.kwargs)) =
        l.filter (fun x => decide (x.1 = t)) := by
  intro l
  induction l with
  | nil => rfl
  | cons a as ih =>
    by_cases h : a.1 = t
    · simp [List.filter_cons, toInvocation, h, ih]
      rw [← h]
    · simp [List.filter_cons, toInvocation, h, ih]

/-! ## Claim theorems -/

/-- C1: advancing the virtual clock to a future instant collects the due
tuples of all records, stable-sorts them by fire instant ascending (ties
keep discovery order: filtering the invocation list at any instant yields
exactly the discovery-ordered tuples of that instant), invokes every
callback in that order while the current instant still reads as the
pre-travel instant, and only then sets the current instant to the target. -/
theorem time_travel_sorted_fire_then_advance (d : HassDriver) (T : Int)
    (h : simulation_time d < T) :
    ∃ invs d2,
      time_travel_to d T = Except.ok (invs, d2) ∧
      invs = (sortByInstant (collectDue (simulation_time d) T d.schedulers).2).map
        (toInvocation d.current_datetime) ∧
      List.Pairwise (fun a b => a.fire_at ≤ b.fire_at) invs ∧
      (∀ t : Int,
        (invs.filter (fun i => decide (i.fire_at = t))).map
            (fun i => (i.fire_at, i.callback, i.kwargs)) =
          (collectDue (simulation_time d) T d.schedulers).2.filter
            (fun x => decide (x.1 = t))) ∧
      (∀ i ∈ invs, i.now = d.current_datetime) ∧
      d2.current_datetime = T := by
  have hne : ¬ T = simulation_time d := ne_of_gt h
  have hnlt : ¬ T < simulation_time d := not_lt.mpr (le_of_lt h)
  have heq : time_travel_to d T = Except.ok
      ((sortByInstant (collectDue (simulation_time d) T d.schedulers).2).map
        (toInvocation d.current_datetime),
       { d with schedulers := (collectDue (simulation_time d) T d.schedulers).1,
                current_datetime := T }) := by
    simp only [time_travel_to, if_neg hne, if_neg hnlt]
  refine ⟨_, _, heq, rfl, ?_, ?_, ?_, rfl⟩
  · exact List.pairwise_map.mpr (pairwise_sortByInstant _)
  · intro t
    rw [filter_map_invocation, filter_sortByInstant]
  · intro i hi
    rcases List.mem_map.mp hi with ⟨due, _, rfl⟩
    rfl

/-- Witness for C1: a driver holding two one-shots due at the same
instant and one due earlier; the conclusion of the claim theorem holds at
this concrete input. -/
theorem time_travel_sorted_fire_then_advance_witness :
    ∃ invs d2,
      time_travel_to
        ((_set_scheduler ((_set_scheduler ((_set_scheduler
            (mkDriver true 0) 50 0 1 0).1) 50 0 2 0).1) 10 0 3 0).1) 100 =
        Except.ok (invs, d2) ∧
      invs = (sortByInstant (collectDue
          (simulation_time ((_set_scheduler ((_set_scheduler ((_set_scheduler
            (mkDriver true 0) 50 0 1 0).1) 50 0 2 0).1) 10 0 3 0).1)) 100
          ((_set_scheduler ((_set_scheduler ((_set_scheduler
            (mkDriver true 0) 50 0 1 0).1) 50 0 2 0).1) 10 0 3 0).1).schedulers).2).map
        (toInvocation ((_set_scheduler ((_set_scheduler ((_set_scheduler
            (mkDriver true 0) 50 0 1 0).1) 50 0 2 0).1) 10 0 3 0).1).current_datetime) ∧
      List.Pairwise (fun a b => a.fire_at ≤ b.fire_at) invs ∧
      (∀ t : Int,
        (invs.filter (fun i => decide (i.fire_at = t))).map
            (fun i => (i.fire_at, i.callback, i.kwargs)) =
          (collectDue
            (simulation_time ((_set_scheduler ((_set_scheduler ((_set_scheduler
              (mkDriver true 0) 50 0 1 0).1) 50 0 2 0).1) 10 0 3 0).1)) 100
            ((_set_scheduler ((_set_scheduler ((_set_scheduler
              (mkDriver true 0) 50 0 1 0).1) 50 0 2 0).1) 10 0 3 0).1).schedulers).2.filter
            (fun x => decide (x.1 = t))) ∧
      (∀ i ∈ invs, i.now = ((_set_scheduler ((_set_scheduler ((_set_scheduler
          (mkDriver true 0) 50 0 1 0).1) 50 0 2 0).1) 10 0 3 0).1).current_datetime) ∧
      d2.current_datetime = 100 :=
  time_travel_sorted_fire_then_advance
    ((_set_scheduler ((_set_scheduler ((_set_scheduler
        (mkDriver true 0) 50 0 1 0).1) 50 0 2 0).1) 10 0 3 0).1) 100 (by decide)

/-- C3 (bug exhibit): a repeating schedule whose anchor lies before the
current instant at registration: after advancing 600 to 660 the record's
`last_run` bookkeeping is 120 — far below the instants already passed —
so the next advance to 720 re-fires instant 660, giving 4 invocations for
the 3 scheduled instants 600, 660 and 720 in the travelled range. -/
theorem run_every_stale_last_run_double_fires :
    (runAdvances (registerEvery 600 0 60 3 0) [660, 720]).toOption.map
        (fun r => (r.1.length,
          r.1.map (fun i => i.fire_at),
          r.2.schedulers.map (fun q => (q.2.run_count, q.2.last_run)))) =
      some (4, [600, 660, 660, 720], [(4, 240)]) ∧ (240 : Int) < 720 := by
  constructor
  · decide
  · decide

/-- C5 (bug exhibit): `setup` is a generator context manager without
try/finally, so when the wrapped body raises, the flag stays `true`; on a
normal exit it is reset. -/
theorem setup_flag_leaks_on_exception :
    (setup (mkDriver true 0) (fun d1 => (d1, some "boom"))).1.setup_active = true ∧
    (setup (mkDriver true 0) (fun d1 => (d1, some "boom"))).2 = some "boom" ∧
    (setup (mkDriver true 0) (fun d1 => (d1, Option.none))).1.setup_active = false := by
  refine ⟨rfl, rfl, rfl⟩

/-- C8 (bug exhibit): `_set_scheduler` does create a record under a fresh
handle and return the handle, but every registration method is wrapped by
the decorator whose body discards the return value, so the caller of
`run_at`/`run_in`/`run_every`/`run_daily`/`run_hourly`/`run_minutely`
receives Python `None` instead of the handle. -/
theorem registration_returns_none_not_handle :
    (_set_scheduler (mkDriver true 0) 600 0 5 0).2 = 0 ∧
    (_se_run_at 5 600 0 (mkDriver true 0)).2 = Option.none ∧
    (_se_run_at 5 600 0 (mkDriver true 0)).1.schedulers.map
      (fun p => (p.1, p.2.start)) = [(0, 600)] ∧
    (_se_run_in 5 600 0 (mkDriver true 0)).2 = Option.none ∧
    (_se_run_every 5 600 90 0 (mkDriver true 0)).2 = Option.none ∧
    (_se_run_daily 5 600 0 (mkDriver true 0)).2 = Option.none ∧
    (_se_run_hourly 5 600 0 (mkDriver true 0)).2 = Option.none ∧
    (_se_run_minutely 5 600 0 (mkDriver true 0)).2 = Option.none := by
  decide

/-- C10: with `update_states = False` the decorator short-circuits every
registration and every turn_on/turn_off convenience call: the driver is
returned untouched (no schedule record, no state mutation, no observer)
and the caller receives Python `None`. -/
theorem update_states_false_all_noop (base start delay interval : Int)
    (cb kw : Nat) (e : String) (kwargs : AttrMap) :
    _se_run_at cb start kw (mkDriver false base) = (mkDriver false base, Option.none) ∧
    _se_run_in cb delay kw (mkDriver false base) = (mkDriver false base, Option.none) ∧
    _se_run_every cb start interval kw (mkDriver false base) =
      (mkDriver false base, Option.none) ∧
    _se_run_daily cb start kw (mkDriver false base) = (mkDriver false base, Option.none) ∧
    _se_run_hourly cb start kw (mkDriver false base) = (mkDriver false base, Option.none) ∧
    _se_run_minutely cb start kw (mkDriver false base) =
      (mkDriver false base, Option.none) ∧
    _se_turn_on e kwargs (mkDriver false base) = (mkDriver false base, Option.none) ∧
    _se_turn_off e kwargs (mkDriver false base) = (mkDriver false base, Option.none) := by
  refine ⟨rfl, rfl, rfl, rfl, rfl, rfl, rfl, rfl⟩

/-! ## Arithmetic of the repeating-schedule loop -/

theorem schedLoop_stop (cur new P : Int) (cb kw : Nat) :
    ∀ (fuel : Nat) (next_ lastRun : Int) (rc : Nat), new < next_ →
      schedLoop cur new P cb kw fuel next_ lastRun rc = (lastRun, rc, []) := by
  intro fuel next_ lastRun rc h
  cases fuel with
  | zero => rfl
  | succ f => simp [schedLoop, not_le.mpr h]

/-- Between any two consecutive multiples of a positive period there is a
unique window containing a given instant at or after the anchor. -/
theorem exists_window (P : Int) (hP : 1 ≤ P) :
    ∀ (bound : Nat) (L new : Int), L ≤ new → (new - L).toNat ≤ bound →
      ∃ j : Nat, L + (j : Int) * P ≤ new ∧ new < L + ((j : Int) + 1) * P := by
  intro bound
  induction bound with
  | zero =>
    intro L new hle hb
    refine ⟨0, by simpa using hle, ?_⟩
    have hnew : new = L := by omega
    simp [hnew]
    omega
  | succ n ih =>
    intro L new hle hb
    by_cases hc : new < L + P
    · refine ⟨0, by simpa using hle, by simpa using hc⟩
    · obtain ⟨j, h1, h2⟩ := ih (L + P) new (by omega) (by omega)
      refine ⟨j + 1, ?_, ?_⟩
      · push_cast
        linarith
      · push_cast
        linarith

/-- The loop in the regime the code maintains for well-anchored repeating
schedules: the lower cutoff `cur` is at or below the starting point, so
every generated instant up to `new` fires; the loop then returns the
start advanced by one period per fire, the run count incremented once per
fire, and one due tuple per generated instant. -/
theorem schedLoop_window (cur new P : Int) (cb kw : Nat) (hP : 1 ≤ P) :
    ∀ (j fuel : Nat) (next_ : Int) (rc : Nat),
      cur ≤ next_ →
      next_ + (j : Int) * P ≤ new →
      new < next_ + ((j : Int) + 1) * P →
      j + 1 ≤ fuel →
      ∃ dues : List Due,
        schedLoop cur new P cb kw fuel next_ next_ rc =
          (next_ + ((j : Int) + 1) * P, rc + (j + 1), dues) ∧
        dues.length = j + 1 := by
  intro j
  induction j with
  | zero =>
    intro fuel next_ rc hcur hlow hhigh hfuel
    obtain ⟨f, rfl⟩ : ∃ f, fuel = f + 1 := ⟨fuel - 1, by omega⟩
    have hle : next_ ≤ new := by simpa using hlow
    have hgt : new < next_ + P := by
      have : ((0 : Nat) : Int) + 1 = 1 := by norm_num
      rw [this, one_mul] at hhigh
      exact hhigh
    refine ⟨[(next_, cb, kw)], ?_, rfl⟩
    simp only [schedLoop, if_pos hle, if_pos hcur,
      schedLoop_stop cur new P cb kw f (next_ + P) (next_ + P) (rc + 1) hgt]
    norm_num
  | succ n ih =>
    intro fuel next_ rc hcur hlow hhigh hfuel
    obtain ⟨f, rfl⟩ : ∃ f, fuel = f + 1 := ⟨fuel - 1, by omega⟩
    have hprod : (0 : Int) ≤ (n : Int) * P := by positivity
    have hle : next_ ≤ new := by
      push_cast at hlow
      nlinarith
    obtain ⟨dues, hdues, hlen⟩ := ih f (next_ + P) (rc + 1)
      (by omega)
      (by push_cast at hlow ⊢; linarith)
      (by push_cast at hhigh ⊢; linarith)
      (by omega)
    refine ⟨(next_, cb, kw) :: dues, ?_, by simpa using hlen⟩
    simp only [schedLoop, if_pos hle, if_pos hcur, hdues]
    refine Prod.ext ?_ (Prod.ext ?_ rfl)
    · push_cast
      ring
    · simp
      omega

/-- Characterization of one visit of the collection loop to a repeating
record whose `last_run` is at or after the lower cutoff: either nothing is
due yet, or the record fires once per generated instant in the window. -/
theorem collectDueOne_repeating (cur new : Int) (s : Scheduler)
    (hP : 1 ≤ s.frequency_sec) (hcur : cur ≤ s.last_run) :
    (new < s.last_run ∧ collectDueOne cur new s = (s, [])) ∨
    (s.last_run ≤ new ∧ ∃ (j : Nat) (dues : List Due),
      collectDueOne cur new s =
        ({ s with last_run := s.last_run + ((j : Int) + 1) * s.frequency_sec,
                  run_count := s.run_count + (j + 1) }, dues) ∧
      dues.length = j + 1 ∧
      s.last_run + (j : Int) * s.frequency_sec ≤ new ∧
      new < s.last_run + ((j : Int) + 1) * s.frequency_sec) := by
  have hne : ¬ s.frequency_sec < 1 := not_lt.mpr hP
  by_cases hnew : new < s.last_run
  · left
    refine ⟨hnew, ?_⟩
    simp only [collectDueOne, if_neg hne,
      schedLoop_stop cur new s.frequency_sec s.callback s.kwargs _ _ _ _ hnew]
  · right
    have hge : s.last_run ≤ new := le_of_not_lt hnew
    refine ⟨hge, ?_⟩
    obtain ⟨j, hlow, hhigh⟩ := exists_window s.frequency_sec hP
      ((new - s.last_run).toNat) s.last_run new hge (le_refl _)
    have hj : (j : Int) ≤ (j : Int) * s.frequency_sec :=
      le_mul_of_one_le_right (Int.natCast_nonneg j) hP
    have hfuel : j + 1 ≤ (new + 1 - s.last_run).toNat := by omega
    obtain ⟨dues, hdues, hlen⟩ := schedLoop_window cur new s.frequency_sec
      s.callback s.kwargs hP j ((new + 1 - s.last_run).toNat) s.last_run
      s.run_count hcur hlow hhigh hfuel
    refine ⟨j, dues, ?_, hlen, hlow, hhigh⟩
    simp only [collectDueOne, if_neg hne, hdues]

/-- The invariant the virtual clock maintains for a repeating schedule
with period `P` that was registered at anchor `T` while the current
instant was `c0 ≤ T`: the bookkeeping field trails the anchor by exactly
one period per past fire, and the current instant `c` sits inside the
last consumed window (or the schedule has not fired and the clock never
reached the anchor). -/
def SchedInv (T P c0 c : Int) (s : Scheduler) : Prop :=
  s.frequency_sec = P ∧
  s.last_run = T + (s.run_count : Int) * P ∧
  ((s.run_count = 0 ∧ c ≤ T ∧ (c < T ∨ c = c0)) ∨
   (1 ≤ s.run_count ∧ s.last_run - P ≤ c ∧ c < s.last_run))

/-- One `time_travel_to` call on a driver holding a single repeating
schedule preserves `SchedInv` and fires exactly the number of callbacks
the run counter advances by. -/
theorem time_travel_single_every (T P c0 : Int) (hP : 1 ≤ P)
    (d : HassDriver) (hdl : Nat) (s : Scheduler) (tgt : Int)
    (hs : d.schedulers = [(hdl, s)])
    (hinv : SchedInv T P c0 d.current_datetime s)
    (htgt : d.current_datetime ≤ tgt) :
    ∃ invs s2 d2,
      time_travel_to d tgt = Except.ok (invs, d2) ∧
      d2.schedulers = [(hdl, s2)] ∧
      d2.current_datetime = tgt ∧
      SchedInv T P c0 tgt s2 ∧
      invs.length + s.run_count = s2.run_count := by
  obtain ⟨hfreq, hlr, hcase⟩ := hinv
  have hlrT : s.run_count = 0 → s.last_run = T := by
    intro h0
    rw [hlr, h0]
    simp
  have hcur_le : d.current_datetime ≤ s.last_run := by
    rcases hcase with ⟨h0, hcT, _⟩ | ⟨_, _, hlt⟩
    · rw [hlrT h0]
      exact hcT
    · exact le_of_lt hlt
  by_cases heqt : tgt = simulation_time d
  · refine ⟨[], s, d, ?_, hs, ?_, ?_, by simp⟩
    · simp [time_travel_to, heqt]
    · rw [heqt]
      rfl
    · rw [heqt]
      exact ⟨hfreq, hlr, hcase⟩
  · have hlt : d.current_datetime < tgt := lt_of_le_of_ne htgt (fun hh => heqt hh.symm)
    have heqt2 : ¬ tgt = d.current_datetime := heqt
    have hnlt2 : ¬ tgt < d.current_datetime := not_lt.mpr (le_of_lt hlt)
    have hP' : 1 ≤ s.frequency_sec := by rw [hfreq]; exact hP
    rcases collectDueOne_repeating d.current_datetime tgt s hP' hcur_le with
      ⟨hnew, hcd⟩ | ⟨hge, j, dues, hcd, hlen, hlow, hhigh⟩
    · have htt : time_travel_to d tgt = Except.ok
          ([], { d with current_datetime := tgt, schedulers := [(hdl, s)] }) := by
        simp [time_travel_to, hs, collectDue, hcd, sortByInstant,
          simulation_time, heqt2, hnlt2]
      refine ⟨[], s, _, htt, rfl, rfl, ?_, by simp⟩
      refine ⟨hfreq, hlr, ?_⟩
      rcases hcase with ⟨h0, hcT, hor⟩ | ⟨h1, hl, hh⟩
      · left
        have hTlr := hlrT h0
        refine ⟨h0, ?_, Or.inl ?_⟩ <;> rw [← hTlr] <;>
          [exact le_of_lt hnew; exact hnew]
      · right
        exact ⟨h1, le_trans hl htgt, hnew⟩
    · have htt : time_travel_to d tgt = Except.ok
          ((sortByInstant dues).map (toInvocation d.current_datetime),
           { d with current_datetime := tgt, schedulers := [(hdl,
               { s with last_run := s.last_run + ((j : Int) + 1) * s.frequency_sec,
                        run_count := s.run_count + (j + 1) })] }) := by
        simp [time_travel_to, hs, collectDue, hcd, simulation_time, heqt2, hnlt2]
      refine ⟨(sortByInstant dues).map (toInvocation d.current_datetime),
        { s with last_run := s.last_run + ((j : Int) + 1) * s.frequency_sec,
                 run_count := s.run_count + (j + 1) }, _, htt, rfl, rfl, ?_, ?_⟩
      · refine ⟨hfreq, ?_, Or.inr ⟨?_, ?_, ?_⟩⟩
        · show s.last_run + ((j : Int) + 1) * s.frequency_sec =
            T + ((s.run_count + (j + 1) : Nat) : Int) * P
          rw [hlr, hfreq]
          push_cast
          ring
        · show 1 ≤ s.run_count + (j + 1)
          omega
        · show s.last_run + ((j : Int) + 1) * s.frequency_sec - P ≤ tgt
          rw [hfreq] at hlow ⊢
          have hrw : s.last_run + ((j : Int) + 1) * P - P = s.last_run + (j : Int) * P := by
            ring
          rw [hrw]
          exact hlow
        · show tgt < s.last_run + ((j : Int) + 1) * s.frequency_sec
          exact hhigh
      · rw [List.length_map, length_sortByInstant]
        simp [hlen]
        omega

/-- Any monotone sequence of `time_travel_to` calls on a driver holding a
single repeating schedule preserves `SchedInv` and fires one callback per
run-count increment in total. -/
theorem runAdvances_single_every (T P c0 : Int) (hP : 1 ≤ P) :
    ∀ (ts : List Int) (d : HassDriver) (hdl : Nat) (s : Scheduler),
      d.schedulers = [(hdl, s)] →
      SchedInv T P c0 d.current_datetime s →
      List.Chain' (fun a b => a ≤ b) (d.current_datetime :: ts) →
      ∃ invs s2 d2,
        runAdvances d ts = Except.ok (invs, d2) ∧
        d2.schedulers = [(hdl, s2)] ∧
        d2.current_datetime = List.getLastD ts d.current_datetime ∧
        SchedInv T P c0 d2.current_datetime s2 ∧
        invs.length + s.run_count = s2.run_count := by
  intro ts
  induction ts with
  | nil =>
    intro d hdl s hs hinv hchain
    exact ⟨[], s, d, rfl, hs, rfl, hinv, by simp⟩
  | cons t ts ih =>
    intro d hdl s hs hinv hchain
    obtain ⟨hct, hchain1⟩ := List.chain'_cons.mp hchain
    obtain ⟨invs1, s1, d1, htt, hs1, hc1, hinv1, hcnt1⟩ :=
      time_travel_single_every T P c0 hP d hdl s t hs hinv hct
    have hinv1' : SchedInv T P c0 d1.current_datetime s1 := by
      rw [hc1]
      exact hinv1
    have hchain1' : List.Chain' (fun a b => a ≤ b) (d1.current_datetime :: ts) := by
      rw [hc1]
      exact hchain1
    obtain ⟨invs2, s2, d2, hrun, hs2, hc2, hinv2, hcnt2⟩ :=
      ih d1 hdl s1 hs1 hinv1' hchain1'
    refine ⟨invs1 ++ invs2, s2, d2, ?_, hs2, ?_, hinv2, ?_⟩
    · simp [runAdvances, htt, hrun]
    · rw [List.getLastD_cons]
      rw [hc1] at hc2
      exact hc2
    · rw [List.length_append]
      omega

/-- The invariant pins the run counter at the end of the journey: reaching
instant `T + k * P` means exactly `k + 1` fires have happened, except in
the degenerate case where the clock started at the anchor and never
moved. -/
theorem schedInv_run_count (T P c0 : Int) (k : Nat) (s : Scheduler) (hP : 1 ≤ P)
    (hinv : SchedInv T P c0 (T + (k : Int) * P) s) (hk : c0 < T ∨ 1 ≤ k) :
    s.run_count = k + 1 := by
  obtain ⟨hfreq, hlr, hcase⟩ := hinv
  rcases hcase with ⟨h0, hcT, hor⟩ | ⟨h1, hl, hh⟩
  · exfalso
    have hkP : (k : Int) * P ≤ 0 := by linarith
    have hk0 : k = 0 := by
      by_contra hne
      have h1k : (1 : Int) ≤ (k : Int) := by
        exact_mod_cast Nat.one_le_iff_ne_zero.mpr hne
      nlinarith
    subst hk0
    rcases hor with hltT | heqc0
    · simp at hltT
    · rcases hk with hc0 | hk1
      · simp at heqc0
        omega
      · omega
  · rw [hlr] at hl hh
    have hkrc : (k : Int) < (s.run_count : Int) := by
      have hmul : (k : Int) * P < (s.run_count : Int) * P := by linarith
      exact lt_of_mul_lt_mul_right hmul (by linarith)
    have hrck : (s.run_count : Int) - 1 ≤ (k : Int) := by
      have hsub : (s.run_count : Int) * P - P ≤ (k : Int) * P := by linarith
      have hmul : ((s.run_count : Int) - 1) * P ≤ (k : Int) * P := by
        calc ((s.run_count : Int) - 1) * P
            = (s.run_count : Int) * P - P := by ring
          _ ≤ (k : Int) * P := hsub
      exact le_of_mul_le_mul_right hmul (by linarith)
    omega

/-- C2 (amended): a repeating schedule with period `P >= 1` registered at
anchor `T` while the current instant `c0` is at or before `T`, advanced
piecewise through any monotone sequence of targets ending at `T + k * P`,
fires exactly `k + 1` times in total — independent of the intermediate
jump points — provided the clock genuinely has the anchor ahead of it
(`c0 < T`, or `k >= 1`). -/
theorem run_every_piecewise_fires_k_plus_one (T P c0 : Int) (k : Nat)
    (cb kw : Nat) (ts : List Int)
    (hP : 1 ≤ P) (hc0 : c0 ≤ T)
    (hchain : List.Chain' (fun a b => a ≤ b) (c0 :: ts))
    (hlast : List.getLastD ts c0 = T + (k : Int) * P)
    (hk : c0 < T ∨ 1 ≤ k) :
    ∃ invs d2,
      runAdvances (registerEvery c0 T P cb kw) ts = Except.ok (invs, d2) ∧
      invs.length = k + 1 := by
  have hs : (registerEvery c0 T P cb kw).schedulers =
      [(0, mkScheduler T P cb kw)] := rfl
  have hcur : (registerEvery c0 T P cb kw).current_datetime = c0 := rfl
  have hinv : SchedInv T P c0 (registerEvery c0 T P cb kw).current_datetime
      (mkScheduler T P cb kw) := by
    refine ⟨rfl, ?_, Or.inl ⟨rfl, ?_, Or.inr ?_⟩⟩
    · show T = T + ((0 : Nat) : Int) * P
      simp
    · rw [hcur]
      exact hc0
    · rw [hcur]
  have hchain0 : List.Chain' (fun a b => a ≤ b)
      ((registerEvery c0 T P cb kw).current_datetime :: ts) := by
    rw [hcur]
    exact hchain
  obtain ⟨invs, s2, d2, hrun, hs2, hc2, hinv2, hcnt⟩ :=
    runAdvances_single_every T P c0 hP ts (registerEvery c0 T P cb kw) 0
      (mkScheduler T P cb kw) hs hinv hchain0
  refine ⟨invs, d2, hrun, ?_⟩
  rw [hcur, hlast] at hc2
  rw [hc2] at hinv2
  have hrc := schedInv_run_count T P c0 k s2 hP hinv2 hk
  have h0 : (mkScheduler T P cb kw).run_count = 0 := rfl
  omega

/-- Witness for C2 (amended): anchor 600s, period 90s, registered at
instant 0; advancing via 300, 600, 960 = 600 + 4*90 fires 5 times. -/
theorem run_every_piecewise_fires_witness :
    ∃ invs d2,
      runAdvances (registerEvery 0 600 90 3 0) [300, 600, 960] =
        Except.ok (invs, d2) ∧
      invs.length = 4 + 1 :=
  run_every_piecewise_fires_k_plus_one 600 90 0 4 3 0 [300, 600, 960]
    (by decide) (by decide) (by norm_num [List.chain'_cons]) (by decide)
    (Or.inl (by decide))

/-- C2 counterexample to the claim as stated: with anchor `T = 600`,
period 90 and `k = 0`, piecewise advancing 0 → 300 → 600 = T + 0*90
produces one fire, not the zero fires the claim's `k` formula predicts
(the schedule also fires at the anchor itself). -/
theorem run_every_fires_at_anchor_counterexample :
    (runAdvances (registerEvery 0 600 90 3 0) [300, 600]).toOption.map
        (fun r => r.1.length) = some 1 := by
  decide

/-- C4 counterexample to the claim as stated: a one-shot registered while
its anchor (300) already lies strictly before the current instant (600)
is skipped by the eligibility test `s.start < self.simulation_time`, so
advancing to 900 fires it zero times, not once. -/
theorem one_shot_past_anchor_skipped_counterexample :
    (time_travel_to ((_se_run_at 7 300 0 (mkDriver true 600)).1) 900).toOption.map
        (fun r => (r.1.length, r.2.schedulers.map (fun q => q.2.run_count))) =
      some (0, [0]) := by
  decide

/-- C4 (amended): an unfired, uncanceled one-shot whose anchor is exactly
the current instant is still eligible, and the next advance to any future
instant fires it exactly once; a one-shot whose anchor lies strictly
before the current instant is never fired. -/
theorem one_shot_at_current_fires_once (d : HassDriver) (hdl : Nat)
    (s : Scheduler) (T : Int)
    (hs : d.schedulers = [(hdl, s)])
    (hfreq : s.frequency_sec < 1)
    (hstart : s.start = d.current_datetime)
    (hrc : s.run_count = 0)
    (hcanc : s.is_canceled = false)
    (hT : d.current_datetime < T) :
    time_travel_to d T = Except.ok
      ([toInvocation d.current_datetime (s.start, s.callback, s.kwargs)],
       { d with current_datetime := T,
                schedulers := [(hdl, { s with run_count := 1 })] }) := by
  have hne : ¬ T = d.current_datetime := ne_of_gt hT
  have hnlt : ¬ T < d.current_datetime := not_lt.mpr (le_of_lt hT)
  have hskip : ¬ (s.is_canceled = true ∨ s.start < d.current_datetime ∨
      s.start > T ∨ (s.start = d.current_datetime ∧ s.run_count > 0)) := by
    simp [hcanc, hstart, hrc]
    omega
  have hcd : collectDueOne d.current_datetime T s =
      ({ s with run_count := 1 }, [(s.start, s.callback, s.kwargs)]) := by
    simp only [collectDueOne, if_pos hfreq]
    rw [if_neg hskip]
    simp [hrc]
  simp [time_travel_to, simulation_time, hne, hnlt, hs, collectDue, hcd,
    sortByInstant, insertByInstant]

/-- Witness for C4 (amended): a one-shot registered at anchor 600 while
the clock reads 600; advancing to 900 fires it exactly once. -/
theorem one_shot_at_current_fires_once_witness :
    time_travel_to ((_se_run_at 7 600 0 (mkDriver true 600)).1) 900 = Except.ok
      ([toInvocation ((_se_run_at 7 600 0 (mkDriver true 600)).1).current_datetime
          ((mkScheduler 600 0 7 0).start, (mkScheduler 600 0 7 0).callback,
            (mkScheduler 600 0 7 0).kwargs)],
       { (_se_run_at 7 600 0 (mkDriver true 600)).1 with
           current_datetime := 900,
           schedulers := [(0, { mkScheduler 600 0 7 0 with run_count := 1 })] }) :=
  one_shot_at_current_fires_once ((_se_run_at 7 600 0 (mkDriver true 600)).1) 0
    (mkScheduler 600 0 7 0) 900 (by decide) (by decide) (by decide) (by decide)
    (by decide) (by decide)

/-- C6 counterexample to the claim as stated: `old_value` is computed with
Python `or`, so an explicitly supplied falsy forced-previous value (here
the integer 0) is discarded in favour of the stored value.  With stored
value "on" and new value "on" the call is a complete no-op (even though
the claim's resolution rule would give old = 0 ≠ "on"), and a registered
observer with no filters is not invoked. -/
theorem set_state_falsy_forced_previous_counterexample :
    resolve_old (Value.int 0) (Value.str "on") = Value.str "on" ∧
    ¬ resolve_old (Value.int 0) (Value.str "on") = Value.int 0 ∧
    set_state
        ((_se_listen_state
            { mkDriver true 0 with states := [("light.a", [("state", Value.str "on")])] }
            9 (some "light.a") Option.none Option.none Option.none []).1)
        "light.a" (Value.str "on") "state" (Value.int 0) Option.none [] =
      { driver := (_se_listen_state
            { mkDriver true 0 with states := [("light.a", [("state", Value.str "on")])] }
            9 (some "light.a") Option.none Option.none Option.none []).1,
        notified := [], error := Option.none } := by
  refine ⟨by decide, by decide, by decide⟩

/-- C6 (amended): `old_value` resolves to the forced-previous value only
when that value is truthy, otherwise to the attribute's stored value; and
whenever the resolved old value equals the new value the call is a
complete no-op — no attribute write, no observer invocation, no error —
apart from the lazy creation of the entity's default record by the
`defaultdict` access that precedes the comparison. -/
theorem set_state_noop_when_resolved_old_equals_new (d : HassDriver)
    (entity dm obj : String) (st prevv : Value) (attr : String)
    (trig : Option Bool) (kwargs : AttrMap)
    (hsplit : splitDot entity = some (dm, obj))
    (heq : resolve_old prevv (attrGet (getOrInsert d.states entity).2 attr) = st) :
    set_state d entity st attr prevv trig kwargs =
      { driver := { d with states := (getOrInsert d.states entity).1 },
        notified := [], error := Option.none } := by
  simp only [set_state, hsplit]
  rw [if_pos heq]

/-- Witness for C6 (amended): setting "off" over a stored "off" with no
forced previous is a no-op on an already-present entity. -/
theorem set_state_noop_witness :
    set_state
        { mkDriver true 0 with states := [("light.a", [("state", Value.str "off")])] }
        "light.a" (Value.str "off") "state" Value.none Option.none [] =
      { driver := { mkDriver true 0 with states :=
            (getOrInsert [("light.a", [("state", Value.str "off")])] "light.a").1 },
        notified := [], error := Option.none } := by
  have h := set_state_noop_when_resolved_old_equals_new
    { mkDriver true 0 with states := [("light.a", [("state", Value.str "off")])] }
    "light.a" "light" "a" (Value.str "off") Value.none "state" Option.none []
    (by decide) (by decide)
  exact h

/-! ## Malformed entity identifiers -/

theorem dotSplit_no_dot : ∀ cs : List Char, '.' ∉ cs → dotSplit cs = [cs] := by
  intro cs
  induction cs with
  | nil => intro _; rfl
  | cons c rest ih =>
    intro h
    have hc : ¬ c = '.' := fun hh => h (by simp [hh])
    have hr : '.' ∉ rest := fun hm => h (List.mem_cons_of_mem c hm)
    simp [dotSplit, ih hr, hc]

theorem splitDot_eq_none_of_no_dot (s : String) (h : hasDot s = false) :
    splitDot s = Option.none := by
  have hmem : '.' ∉ s.toList := by
    intro hm
    have h1 : List.elem '.' s.toList = true := List.elem_eq_true_of_mem hm
    have h2 : List.elem '.' s.toList = false := h
    rw [h1] at h2
    exact Bool.noConfusion h2
  rw [splitDot, dotSplit_no_dot s.toList hmem]

theorem domainMatches_ok (dom : String) :
    ∀ states : List (String × AttrMap),
      (∀ p ∈ states, (splitDot p.1).isSome = true) →
      ∃ ms, domainMatches states dom = Except.ok ms := by
  intro states
  induction states with
  | nil => intro _; exact ⟨[], rfl⟩
  | cons p rest ih =>
    intro h
    obtain ⟨q, hq⟩ := Option.isSome_iff_exists.mp (h p (List.mem_cons_self p rest))
    obtain ⟨ms, hms⟩ := ih (fun r hr => h r (List.mem_cons_of_mem p hr))
    obtain ⟨d0, e0⟩ := q
    refine ⟨if d0 = dom then (p.1, p.2) :: ms else ms, ?_⟩
    cases p with
    | mk eid m => simp [domainMatches, hq, hms]

/-- C7 (amended): given an entity id without the domain separator, `set`
raises immediately with no mutation of the driver's state and no observer
invoked, while `get` does not fail: it treats the dotless id as a domain
query and returns a mapping (provided the stored entity ids are
well-formed, as `set` guarantees). -/
theorem missing_separator_set_fails_get_queries_domain (d : HassDriver)
    (eid : String) (v : Value) (attr : String) (prevv : Value)
    (trig : Option Bool) (kwargs : AttrMap) (dflt : Value)
    (hdot : hasDot eid = false)
    (hwf : ∀ p ∈ d.states, (splitDot p.1).isSome = true) :
    set_state d eid v attr prevv trig kwargs =
      { driver := d, notified := [],
        error := some "ValueError: not enough values to unpack" } ∧
    ∃ res, _se_get_state d eid attr dflt = Except.ok (res, d) := by
  obtain ⟨ms, hms⟩ := domainMatches_ok eid d.states hwf
  constructor
  · simp only [set_state, splitDot_eq_none_of_no_dot eid hdot]
  · simp only [_se_get_state, hdot, Bool.false_eq_true, if_false, hms]
    exact ⟨_, rfl⟩

/-- Witness for C7: a store with the single entity "light.a"; querying
"light" (no separator) succeeds while setting "light" raises and leaves
the driver untouched. -/
theorem missing_separator_witness :
    set_state { mkDriver true 0 with states := [("light.a", [("state", Value.str "on")])] }
        "light" (Value.str "x") "state" Value.none Option.none [] =
      { driver := { mkDriver true 0 with
            states := [("light.a", [("state", Value.str "on")])] },
        notified := [],
        error := some "ValueError: not enough values to unpack" } ∧
    ∃ res, _se_get_state
        { mkDriver true 0 with states := [("light.a", [("state", Value.str "on")])] }
        "light" "state" Value.none =
      Except.ok (res,
        { mkDriver true 0 with states := [("light.a", [("state", Value.str "on")])] }) :=
  missing_separator_set_fails_get_queries_domain
    { mkDriver true 0 with states := [("light.a", [("state", Value.str "on")])] }
    "light" (Value.str "x") "state" Value.none Option.none [] Value.none
    (by decide) (by decide)

/-- C7 counterexample to the claim as stated: `get` on an id without the
separator does not fail — it returns the domain mapping. -/
theorem get_without_separator_succeeds_counterexample :
    _se_get_state
        { mkDriver true 0 with states := [("light.a", [("state", Value.str "on")])] }
        "light" "state" Value.none =
      Except.ok (GetRes.many [("light.a", PyObj.prim (Value.str "on"))],
        { mkDriver true 0 with states := [("light.a", [("state", Value.str "on")])] }) := by
  decide

/-! ## Frozen time mocks -/

theorem time_travel_preserves_mocks (d : HassDriver) (t : Int)
    (l : List Invocation) (d1 : HassDriver)
    (h : time_travel_to d t = Except.ok (l, d1)) :
    d1.mock_time_return = d.mock_time_return ∧
    d1.mock_datetime_return = d.mock_datetime_return ∧
    d1.mock_date_return = d.mock_date_return ∧
    d1.current_datetime = t := by
  unfold time_travel_to at h
  by_cases h1 : t = simulation_time d
  · rw [if_pos h1] at h
    simp only [Except.ok.injEq, Prod.mk.injEq] at h
    obtain ⟨hl, hd⟩ := h
    subst hd
    exact ⟨rfl, rfl, rfl, h1.symm⟩
  · rw [if_neg h1] at h
    by_cases h2 : t < simulation_time d
    · rw [if_pos h2] at h
      exact absurd h (by simp)
    · rw [if_neg h2] at h
      simp only [Except.ok.injEq, Prod.mk.injEq] at h
      obtain ⟨hl, hd⟩ := h
      subst hd
      exact ⟨rfl, rfl, rfl, rfl⟩

theorem runAdvances_mocks_frozen :
    ∀ (ts : List Int) (d : HassDriver) (invs : List Invocation) (d2 : HassDriver),
      runAdvances d ts = Except.ok (invs, d2) →
      d2.mock_time_return = d.mock_time_return ∧
      d2.mock_datetime_return = d.mock_datetime_return ∧
      d2.mock_date_return = d.mock_date_return ∧
      d2.current_datetime = List.getLastD ts d.current_datetime := by
  intro ts
  induction ts with
  | nil =>
    intro d invs d2 h
    simp only [runAdvances, Except.ok.injEq, Prod.mk.injEq] at h
    obtain ⟨hl, hd⟩ := h
    subst hd
    exact ⟨rfl, rfl, rfl, rfl⟩
  | cons t ts ih =>
    intro d invs d2 h
    simp only [runAdvances] at h
    cases htt : time_travel_to d t with
    | error e =>
      simp only [htt] at h
      exact absurd h (by simp)
    | ok p =>
      obtain ⟨l1, d1⟩ := p
      simp only [htt] at h
      cases hrun : runAdvances d1 ts with
      | error e =>
        simp only [hrun] at h
        exact absurd h (by simp)
      | ok p2 =>
        obtain ⟨l2, d3⟩ := p2
        simp only [hrun, Except.ok.injEq, Prod.mk.injEq] at h
        obtain ⟨hl, hd⟩ := h
        subst hd
        obtain ⟨m1, m2, m3, hc⟩ := time_travel_preserves_mocks d t l1 d1 htt
        obtain ⟨n1, n2, n3, nc⟩ := ih d1 l2 d3 hrun
        refine ⟨by rw [n1, m1], by rw [n2, m2], by rw [n3, m3], ?_⟩
        rw [nc, hc, List.getLastD_cons]

/-- C9 (amended): the `time`/`datetime`/`date` mocks return the parts of
the instant captured when the driver was constructed and are never
refreshed by clock advances — after any successful sequence of advances
they still report the base instant, while the `simulation_time` property
does reflect the instant reached by the most recent advance. -/
theorem time_accessors_frozen_at_construction (upd : Bool) (base : Int)
    (ts : List Int) (invs : List Invocation) (d2 : HassDriver)
    (h : runAdvances (mkDriver upd base) ts = Except.ok (invs, d2)) :
    mock_time d2 = timeOf base ∧
    mock_datetime d2 = base ∧
    mock_date d2 = dateOf base ∧
    simulation_time d2 = List.getLastD ts base := by
  obtain ⟨m1, m2, m3, mc⟩ := runAdvances_mocks_frozen ts (mkDriver upd base) invs d2 h
  exact ⟨m1, m2, m3, mc⟩

/-- Witness for C9 (amended): base instant 0, advances to 3600 then 7200;
the mocks still answer with instant 0 while `simulation_time` reads
7200. -/
theorem time_accessors_frozen_witness :
    mock_time { mkDriver true 0 with current_datetime := 7200 } = timeOf 0 ∧
    mock_datetime { mkDriver true 0 with current_datetime := 7200 } = 0 ∧
    mock_date { mkDriver true 0 with current_datetime := 7200 } = dateOf 0 ∧
    simulation_time { mkDriver true 0 with current_datetime := 7200 } =
      List.getLastD [3600, 7200] 0 :=
  time_accessors_frozen_at_construction true 0 [3600, 7200] []
    { mkDriver true 0 with current_datetime := 7200 } (by decide)

/-- C9 counterexample to the claim as stated: after advancing from base 0
to 3600, the `datetime` and `time` mocks still return the parts of
instant 0, not of the current instant 3600. -/
theorem mocked_time_stale_counterexample :
    (time_travel_to (mkDriver true 0) 3600).toOption.map
        (fun r => (mock_datetime r.2, mock_time r.2, simulation_time r.2)) =
      some (0, 0, 3600) ∧ ¬ (0 : Int) = 3600 := by
  exact ⟨by decide, by decide⟩
